import Mathlib

/-!
Shallow embedding of `vot/region/shapes.py` (region data model of the toolkit):
the four region variants (Special, Rectangle, Polygon, Mask), their conversion
matrix, the mask compositing routine `get_array`, and the shallow-copy
semantics of `copy()`.

Modelling conventions:
- Python floats are modelled as rationals; `round` is Python's / numpy's
  round-half-to-even (`pyRound`).
- numpy 2-D arrays are `List (List ℤ)` (row-major); `astype(np.uint8)` on an
  integer array is reduction mod 256.
- A raised Python exception is an `error` value of `PyResult`;
  `ConversionException` and `ValueError` (negative array dimensions passed to
  `np.zeros` / `np.ones`) are distinguished.
- `cv2.fillConvexPoly` is an external collaborator (the spec keeps the
  rasterizer out of scope), so polygon-to-mask conversion is parametrized by an
  arbitrary fill function `fill : Mat → List (ℤ × ℤ) → Mat` receiving the
  zero-initialized bitmap and the translated integer vertices.
-/

namespace VotRegion

/-- Python's and numpy's rounding of a real value to the nearest integer,
ties going to the even integer (banker's rounding), as used by
`round(...)` and `np.round(...)` in `shapes.py`. -/
def pyRound (q : ℚ) : ℤ :=
  let f := ⌊q⌋
  if q - f < 1 / 2 then f
  else if q - f > 1 / 2 then f + 1
  else if f % 2 = 0 then f else f + 1

/-- Row-major 2-D integer array, the model of a numpy array. -/
abbrev Mat := List (List ℤ)

/-- Entry of a matrix at row `r`, column `c` (0 outside the stored extent,
mirroring that all in-bounds numpy reads in the sources stay in range). -/
def cellN (m : Mat) (r c : ℕ) : ℤ := (m.getD r []).getD c 0

/-- Entry at possibly negative (integer) indices; negative indices read 0.
Used only at indices that the clipping logic keeps nonnegative. -/
def cellI (m : Mat) (r c : ℤ) : ℤ :=
  if 0 ≤ r ∧ 0 ≤ c then cellN m r.toNat c.toNat else 0

/-- Width of a matrix: length of its first row (numpy `shape[1]`). -/
def matWidth (m : Mat) : ℕ := (m.headD []).length

/-- Model of `np.zeros((h, w), dtype=np.uint8)`. -/
def zerosMat (h w : ℕ) : Mat := List.replicate h (List.replicate w 0)

/-- Model of `np.ones((h, w), np.uint8)`. -/
def onesMat (h w : ℕ) : Mat := List.replicate h (List.replicate w 1)

/-- Element-wise construction of an `h × w` matrix. -/
def genMat (h w : ℕ) (f : ℕ → ℕ → ℤ) : Mat :=
  (List.range h).map fun r => (List.range w).map fun c => f r c

/-- All stored values of a matrix are 0 or 1. -/
def Entries01 (m : Mat) : Prop := ∀ row ∈ m, ∀ v ∈ row, v = 0 ∨ v = 1

/-- The matrix has exactly `h` rows, each of length `w`. -/
def MatDims (m : Mat) (h w : ℕ) : Prop :=
  m.length = h ∧ ∀ row ∈ m, row.length = w

/-- Region type enumeration (`RegionType` in `shapes.py`). -/
inductive RegionType where
  | SPECIAL
  | RECTANGLE
  | POLYGON
  | MASK
deriving DecidableEq

/-- The two Python exception kinds the embedded code can raise:
`ConversionException` from `convert`, and numpy's `ValueError` when a
negative dimension reaches `np.zeros` / `np.ones`. -/
inductive PyError where
  | conversionException
  | valueError
deriving DecidableEq

/-- Result of a Python call that may raise. -/
inductive PyResult (α : Type) where
  | ok : α → PyResult α
  | error : PyError → PyResult α
deriving DecidableEq

/-- Rectangle region: fields `x, y, width, height` of `Rectangle.__init__`. -/
structure Rectangle where
  x : ℚ
  y : ℚ
  width : ℚ
  height : ℚ
deriving DecidableEq

/-- Polygon region: `points` and the derived `count` set by
`Polygon.__init__`. -/
structure Polygon where
  points : List (ℚ × ℚ)
  count : ℕ
deriving DecidableEq

/-- Mask region: `mask` bitmap and integer `offset`. -/
structure Mask where
  mask : Mat
  offset : ℤ × ℤ
deriving DecidableEq

/-- Tagged union of the four region variants. -/
inductive Region where
  | special (code : ℤ)
  | rectangle (r : Rectangle)
  | polygon (p : Polygon)
  | mask (m : Mask)
deriving DecidableEq

/-- Successful `Polygon.__init__`: stores the list and caches its length in
`count`. -/
def Polygon.ofPoints (pts : List (ℚ × ℚ)) : Polygon := ⟨pts, pts.length⟩

/-- `Polygon.__init__` with its `assert points` precondition: an empty point
list fails the assertion (modelled as `none`). -/
def mkPolygon (pts : List (ℚ × ℚ)) : Option Polygon :=
  if pts = [] then none else some (Polygon.ofPoints pts)

/-- Largest finite double, `sys.float_info.max`, the sentinel initial value of
the min/max scan in `Polygon.convert(RECTANGLE)`. -/
def FLOAT_MAX : ℚ := 2 ^ 1024 - 2 ^ 971

/-- One entry of `Mask.__init__` normalization: `astype(np.uint8)` reduces the
input value mod 256, then `self.mask[self.mask > 0] = 1` maps every positive
byte to 1. -/
def normalizeEntry (v : ℤ) : ℤ := if v % 256 = 0 then 0 else 1

/-- The bitmap normalization performed by `Mask.__init__`. -/
def Mask.normalize (input : Mat) : Mat := input.map (List.map normalizeEntry)

/-- Columns of `m` (indices below `shape[1]`) holding a nonzero entry. -/
def colNonzero (m : Mat) (c : ℕ) : Bool := m.any fun row => row.getD c 0 ≠ 0

/-- Does the row hold a nonzero entry. -/
def rowNonzero (row : List ℤ) : Bool := row.any fun v => v ≠ 0

/-- Indices of nonzero columns, ascending. -/
def nzCols (m : Mat) : List ℕ := (List.range (matWidth m)).filter (colNonzero m)

/-- Indices of nonzero rows, ascending. -/
def nzRows (m : Mat) : List ℕ :=
  (List.range m.length).filter fun r => rowNonzero (m.getD r [])

/-- Modelled from the spec: `mask2bbox` is imported from `vot.region.utils`,
which is not among the sources at hand. Spec section 4.8: the smallest integer
rectangle `(x0, y0, x1, y1)` enclosing all nonzero entries of the bitmap, in
the bitmap's own local coordinate frame. The right/bottom bounds are taken
exclusive (half-open), the convention forced by how `shapes.py` consumes the
result: `_optimize` slices `mask[bounds[1]:bounds[3], bounds[0]:bounds[2]]`
and `convert(RECTANGLE)` uses `bounds[2] - bounds[0]` as the width (so that a
`Rectangle(5,5,10,4)` mask round-trips to width 10, per spec section 8).
On an all-zero bitmap the degenerate box `(0, 0, 0, 0)` is returned (the spec
leaves the empty case open; no theorem below depends on this choice). -/
def mask2bbox (m : Mat) : ℕ × ℕ × ℕ × ℕ :=
  if nzCols m = [] ∨ nzRows m = [] then (0, 0, 0, 0)
  else ((nzCols m).headD 0, (nzRows m).headD 0,
        (nzCols m).reverse.headD 0 + 1, (nzRows m).reverse.headD 0 + 1)

/-- Submatrix `m[y0:y1, x0:x1]` (numpy basic slicing). -/
def sliceMat (m : Mat) (y0 y1 x0 x1 : ℕ) : Mat :=
  ((m.drop y0).take (y1 - y0)).map fun row => (row.drop x0).take (x1 - x0)

/-- `Mask._optimize`: crop the bitmap to its bounding box and move the offset
to the box's top-left corner. -/
def Mask.optimizeStep (m : Mask) : Mask :=
  let b := mask2bbox m.mask
  ⟨sliceMat m.mask b.2.1 b.2.2.2 b.1 b.2.2.1, ((b.1 : ℤ), (b.2.1 : ℤ))⟩

/-- `Mask.__init__`: normalize the bitmap to 0/1, store the offset, and run
the one-time `_optimize` step when requested. -/
def Mask.init (input : Mat) (offset : ℤ × ℤ) (opt : Bool) : Mask :=
  if opt then Mask.optimizeStep ⟨Mask.normalize input, offset⟩
  else ⟨Mask.normalize input, offset⟩

/-- `Rectangle.convert(POLYGON)`: the four corners clockwise from the top
left. -/
def Rectangle.toPolygon (r : Rectangle) : Polygon :=
  Polygon.ofPoints
    [(r.x, r.y), (r.x + r.width, r.y),
     (r.x + r.width, r.y + r.height), (r.x, r.y + r.height)]

/-- `Rectangle.convert(MASK)`: an all-ones bitmap of the rounded size at the
rounded position, built through `Mask.__init__`. `np.ones` raises
`ValueError` when a rounded dimension is negative. -/
def Rectangle.toMask (r : Rectangle) : PyResult Mask :=
  if pyRound r.height < 0 ∨ pyRound r.width < 0 then .error .valueError
  else .ok (Mask.init (onesMat (pyRound r.height).toNat (pyRound r.width).toNat)
        (pyRound r.x, pyRound r.y) false)

/-- `Polygon.convert(RECTANGLE)`: min/max scan over the vertices starting
from the `sys.float_info.max` sentinels. -/
def Polygon.toRectangle (p : Polygon) : Rectangle :=
  let top := p.points.foldl (fun a pt => min a pt.2) FLOAT_MAX
  let bottom := p.points.foldl (fun a pt => max a pt.2) (-FLOAT_MAX)
  let left := p.points.foldl (fun a pt => min a pt.1) FLOAT_MAX
  let right := p.points.foldl (fun a pt => max a pt.1) (-FLOAT_MAX)
  ⟨left, top, right - left, bottom - top⟩

/-- Minimum of an integer list (`np.min`; 0 on the empty list, which the
sources never hit since polygons are nonempty). -/
def listMin : List ℤ → ℤ
  | [] => 0
  | x :: xs => xs.foldl min x

/-- Maximum of an integer list (`np.max`). -/
def listMax : List ℤ → ℤ
  | [] => 0
  | x :: xs => xs.foldl max x

/-- Rounded x coordinates of the vertices (`x_` in `Polygon.convert`). -/
def roundedXs (p : Polygon) : List ℤ := p.points.map fun pt => pyRound pt.1

/-- Rounded y coordinates of the vertices (`y_` in `Polygon.convert`). -/
def roundedYs (p : Polygon) : List ℤ := p.points.map fun pt => pyRound pt.2

/-- `Polygon.convert(MASK)`: clamp the integer bounding box's top-left corner
at 0 per axis, allocate a zero bitmap of size
`(max(y) - tl.y + 1) × (max(x) - tl.x + 1)`, let the external rasterizer fill
the vertices translated by `-tl`, and wrap the result through
`Mask.__init__` with offset `tl`. `np.zeros` raises `ValueError` on a
negative dimension. The second `np.round` applied to `points_norm` in the
source is the identity on these already-integer values. -/
def Polygon.toMask (fill : Mat → List (ℤ × ℤ) → Mat) (p : Polygon) :
    PyResult Mask :=
  let xs := roundedXs p
  let ys := roundedYs p
  let tl0 := max 0 (listMin xs)
  let tl1 := max 0 (listMin ys)
  let w := listMax xs - tl0 + 1
  let h := listMax ys - tl1 + 1
  if w < 0 ∨ h < 0 then .error .valueError
  else
    let ptsNorm := (xs.zip ys).map fun q => (q.1 - tl0, q.2 - tl1)
    .ok (Mask.init (fill (zerosMat h.toNat w.toNat) ptsNorm) (tl0, tl1) false)

/-- `Mask.convert(RECTANGLE)`: bounding box plus offset, box extent as
size. -/
def Mask.toRectangle (m : Mask) : Rectangle :=
  let b := mask2bbox m.mask
  ⟨((b.1 : ℤ) + m.offset.1 : ℤ), ((b.2.1 : ℤ) + m.offset.2 : ℤ),
   ((b.2.2.1 : ℤ) - (b.1 : ℤ) : ℤ), ((b.2.2.2 : ℤ) - (b.2.1 : ℤ) : ℤ)⟩

/-- `Mask.convert(POLYGON)`: the four bounding-box corners, exactly as the
source emits them — in the bitmap's local frame, without the offset. -/
def Mask.toPolygonR (m : Mask) : Polygon :=
  let b := mask2bbox m.mask
  Polygon.ofPoints
    [((b.1 : ℚ), (b.2.1 : ℚ)), ((b.2.2.1 : ℚ), (b.2.1 : ℚ)),
     ((b.2.2.1 : ℚ), (b.2.2.2 : ℚ)), ((b.1 : ℚ), (b.2.2.2 : ℚ))]

/-- The full conversion matrix: `convert` of each variant, with
conversion-to-self being `copy()` (value-identical) and every unreachable
target raising `ConversionException`. -/
def Region.convert (fill : Mat → List (ℤ × ℤ) → Mat) :
    Region → RegionType → PyResult Region
  | .special code, .SPECIAL => .ok (.special code)
  | .special _, _ => .error .conversionException
  | .rectangle r, .RECTANGLE => .ok (.rectangle r)
  | .rectangle r, .POLYGON => .ok (.polygon r.toPolygon)
  | .rectangle r, .MASK =>
      match r.toMask with
      | .ok m => .ok (.mask m)
      | .error e => .error e
  | .rectangle _, .SPECIAL => .error .conversionException
  | .polygon p, .POLYGON => .ok (.polygon p)
  | .polygon p, .RECTANGLE => .ok (.rectangle p.toRectangle)
  | .polygon p, .MASK =>
      match p.toMask fill with
      | .ok m => .ok (.mask m)
      | .error e => .error e
  | .polygon _, .SPECIAL => .error .conversionException
  | .mask m, .MASK => .ok (.mask m)
  | .mask m, .RECTANGLE => .ok (.rectangle m.toRectangle)
  | .mask m, .POLYGON => .ok (.polygon m.toPolygonR)
  | .mask _, .SPECIAL => .error .conversionException

/-- A fixed trivial rasterizer used to instantiate `fill` in closed
statements on conversion paths that never call it. -/
def fill0 : Mat → List (ℤ × ℤ) → Mat := fun z _ => z

/-- `Rectangle.resize`. -/
def Rectangle.resize (r : Rectangle) (factor : ℚ) : Rectangle :=
  ⟨r.x * factor, r.y * factor, r.width * factor, r.height * factor⟩

/-- `Rectangle.center`. -/
def Rectangle.center (r : Rectangle) : ℚ × ℚ :=
  (r.x + r.width / 2, r.y + r.height / 2)

/-- The zero canvas of `get_array` with the mask pasted through the
source's clipping logic. The canvas is `np.zeros((h + off.y, w + off.x))`;
the guarded block copies
`self.mask[src_y0:src_y1, src_x0:src_x1]` into
`mask_[dst_y0:dst_y1, dst_x0:dst_x1]`; both windows have equal extents by
construction, so a destination cell `(r, c)` inside the window reads source
cell `(src_y0 + (r - dst_y0), src_x0 + (c - dst_x0))`. Since the canvas is
exactly the natural extent, the right/bottom clips (`dst_x1 > shape[1]`)
never fire and `dst_x1`, `dst_y1` stay `off.x + w`, `off.y + h`. -/
def Mask.naturalCanvas (m : Mask) : Mat :=
  let tlx := m.offset.1
  let tly := m.offset.2
  let rw : ℤ := (matWidth m.mask : ℤ)
  let rh : ℤ := (m.mask.length : ℤ)
  let W := rw + tlx
  let H := rh + tly
  if tlx + rw > 0 ∧ tly + rh > 0 ∧ tlx < W ∧ tly < H then
    let sx0 := if tlx < 0 then -tlx else 0
    let dx0 := if tlx < 0 then 0 else tlx
    let sy0 := if tly < 0 then -tly else 0
    let dy0 := if tly < 0 then 0 else tly
    let dx1 := if tlx + rw > W then W else tlx + rw
    let dy1 := if tly + rh > H then H else tly + rh
    genMat H.toNat W.toNat fun r c =>
      if dy0 ≤ (r : ℤ) ∧ (r : ℤ) < dy1 ∧ dx0 ≤ (c : ℤ) ∧ (c : ℤ) < dx1 then
        cellI m.mask (sy0 + ((r : ℤ) - dy0)) (sx0 + ((c : ℤ) - dx0))
      else 0
  else zerosMat H.toNat W.toNat

/-- The output-size stage of `get_array`: truncate the canvas on the right
and bottom when the requested size is smaller (`mask_[:, :shape[1]+pad_x]`,
`mask_[:shape[0]+pad_y, :]`), then `np.pad` with zeros on the right and
bottom to exactly the requested size. -/
def padCrop (b : Mat) (ow oh : ℕ) : Mat :=
  let w1 := matWidth b
  let b1 := if ow < w1 then b.map (fun row => row.take ow) else b
  let w2 := min ow w1
  let padX := ow - w2
  let h1 := b1.length
  let b2 := if oh < h1 then b1.take oh else b1
  let padY := oh - min oh h1
  (b2.map fun row => row ++ List.replicate padX 0) ++
    List.replicate padY (List.replicate (w2 + padX) 0)

/-- `Mask.get_array(output_sz)`: allocate the natural canvas
`np.zeros((h + off.y, w + off.x))` — raising `ValueError` when either
natural dimension is negative — paste the clipped mask, then apply the
truncate/pad stage when an output size `[width, height]` was requested. -/
def Mask.getArray (m : Mask) (outputSz : Option (ℕ × ℕ)) : PyResult Mat :=
  if (m.mask.length : ℤ) + m.offset.2 < 0 ∨ (matWidth m.mask : ℤ) + m.offset.1 < 0 then
    .error .valueError
  else
    match outputSz with
    | none => .ok m.naturalCanvas
    | some (ow, oh) => .ok (padCrop m.naturalCanvas ow oh)

/-- Heap of mutable Python backing stores: point lists of polygons and
bitmap arrays of masks, addressed by index. `copy.copy` (used by
`Polygon.copy` and `Mask.copy`) duplicates the object but keeps the stored
references, so two objects may address the same store. -/
structure PHeap where
  lists : List (List (ℚ × ℚ))
  mats : List Mat
deriving DecidableEq

/-- A polygon object as a reference into the heap plus its scalar field. -/
structure PolygonObj where
  pointsRef : ℕ
  count : ℕ
deriving DecidableEq

/-- A mask object as a reference into the heap plus its scalar field. -/
structure MaskObj where
  maskRef : ℕ
  offset : ℤ × ℤ
deriving DecidableEq

/-- `Polygon.copy = copy(self)`: a new object with the same field values —
including the same `points` reference (shallow copy). -/
def PolygonObj.copyShallow (p : PolygonObj) : PolygonObj :=
  ⟨p.pointsRef, p.count⟩

/-- `Mask.copy = copy(self)`: same field values, same `mask` reference. -/
def MaskObj.copyShallow (m : MaskObj) : MaskObj := ⟨m.maskRef, m.offset⟩

/-- The point list a polygon object currently sees. -/
def PHeap.readPoints (h : PHeap) (p : PolygonObj) : List (ℚ × ℚ) :=
  h.lists.getD p.pointsRef []

/-- The bitmap a mask object currently sees. -/
def PHeap.readMask (h : PHeap) (m : MaskObj) : Mat :=
  h.mats.getD m.maskRef []

/-- In-place update of one entry of a stored point list
(`points[idx] = v` on the shared list). -/
def PHeap.setPoint (h : PHeap) (ref idx : ℕ) (v : ℚ × ℚ) : PHeap :=
  ⟨h.lists.set ref ((h.lists.getD ref []).set idx v), h.mats⟩

/-- The quadruple `b = (x0, y0, x1, y1)` is the tight half-open bounding box
of the nonzero entries of `m`: it encloses every nonzero entry, and each of
its four edges touches one. -/
def BBoxTight (m : Mat) (b : ℕ × ℕ × ℕ × ℕ) : Prop :=
  (∀ r c, cellN m r c ≠ 0 → b.1 ≤ c ∧ c < b.2.2.1 ∧ b.2.1 ≤ r ∧ r < b.2.2.2) ∧
  (∃ r, cellN m r b.1 ≠ 0) ∧ (∃ r, cellN m r (b.2.2.1 - 1) ≠ 0) ∧
  (∃ c, cellN m b.2.1 c ≠ 0) ∧ (∃ c, cellN m (b.2.2.2 - 1) c ≠ 0)

/-- Conclusion for claim C1 (as amended): converting a mask to a polygon
emits the four corners of the tight bounding box of the nonzero bitmap
entries, ordered top-left, top-right, bottom-right, bottom-left as in
rectangle-to-polygon conversion — but in the bitmap's local coordinate
frame: the mask's offset is not added. -/
def C1Concl (fill : Mat → List (ℤ × ℤ) → Mat) (m : Mask) : Prop :=
  Region.convert fill (.mask m) .POLYGON = .ok (.polygon (Polygon.ofPoints
    [(((mask2bbox m.mask).1 : ℚ), ((mask2bbox m.mask).2.1 : ℚ)),
     (((mask2bbox m.mask).2.2.1 : ℚ), ((mask2bbox m.mask).2.1 : ℚ)),
     (((mask2bbox m.mask).2.2.1 : ℚ), ((mask2bbox m.mask).2.2.2 : ℚ)),
     (((mask2bbox m.mask).1 : ℚ), ((mask2bbox m.mask).2.2.2 : ℚ))])) ∧
  BBoxTight m.mask (mask2bbox m.mask)

/-- Conclusion for claim C2 (as amended): with an explicitly requested
output size, `get_array` returns a bitmap of exactly `oh` rows and `ow`
columns with all values in 0/1; with no requested size it returns a canvas
of exactly the mask's natural extent at its offset. -/
def C2Concl (m : Mask) (ow oh : ℕ) : Prop :=
  (∃ M, m.getArray (some (ow, oh)) = .ok M ∧ MatDims M oh ow ∧ Entries01 M) ∧
  (∃ M, m.getArray none = .ok M ∧
    MatDims M ((m.mask.length : ℤ) + m.offset.2).toNat
      ((matWidth m.mask : ℤ) + m.offset.1).toNat ∧ Entries01 M)

/-- Conclusion for claim C5 (as amended): the intermediate polygon is the
clockwise 4-point trace from the top-left corner, and converting it back
yields a rectangle with the same four field values. -/
def C5Concl (fill : Mat → List (ℤ × ℤ) → Mat) (x y w h : ℤ) : Prop :=
  (Rectangle.toPolygon ⟨(x : ℚ), (y : ℚ), (w : ℚ), (h : ℚ)⟩).points =
    [((x : ℚ), (y : ℚ)), ((x : ℚ) + (w : ℚ), (y : ℚ)),
     ((x : ℚ) + (w : ℚ), (y : ℚ) + (h : ℚ)), ((x : ℚ), (y : ℚ) + (h : ℚ))] ∧
  Region.convert fill (.rectangle ⟨(x : ℚ), (y : ℚ), (w : ℚ), (h : ℚ)⟩) .POLYGON =
    .ok (.polygon (Rectangle.toPolygon ⟨(x : ℚ), (y : ℚ), (w : ℚ), (h : ℚ)⟩)) ∧
  Region.convert fill
      (.polygon (Rectangle.toPolygon ⟨(x : ℚ), (y : ℚ), (w : ℚ), (h : ℚ)⟩)) .RECTANGLE =
    .ok (.rectangle ⟨(x : ℚ), (y : ℚ), (w : ℚ), (h : ℚ)⟩)

/-- Conclusion for claim C6 (as amended): polygon-to-mask conversion hands
the external rasterizer a zero bitmap of height `max(y) - tl.y + 1` and
width `max(x) - tl.x + 1` together with the rounded vertices translated by
`-tl`, and returns the resulting mask with offset `tl`, the integer
bounding box's top-left corner clamped at 0 per axis (so never negative);
`listMin` / `listMax` are genuinely the minimum and maximum of the rounded
coordinates. -/
def C6Concl (fill : Mat → List (ℤ × ℤ) → Mat) (p : Polygon) : Prop :=
  Region.convert fill (.polygon p) .MASK = .ok (.mask (Mask.init
    (fill (zerosMat (listMax (roundedYs p) - max 0 (listMin (roundedYs p)) + 1).toNat
                    (listMax (roundedXs p) - max 0 (listMin (roundedXs p)) + 1).toNat)
          (((roundedXs p).zip (roundedYs p)).map fun q =>
            (q.1 - max 0 (listMin (roundedXs p)), q.2 - max 0 (listMin (roundedYs p)))))
    (max 0 (listMin (roundedXs p)), max 0 (listMin (roundedYs p))) false)) ∧
  0 ≤ max 0 (listMin (roundedXs p)) ∧ 0 ≤ max 0 (listMin (roundedYs p)) ∧
  (∀ v ∈ roundedXs p, listMin (roundedXs p) ≤ v ∧ v ≤ listMax (roundedXs p)) ∧
  (∀ v ∈ roundedYs p, listMin (roundedYs p) ≤ v ∧ v ≤ listMax (roundedYs p)) ∧
  listMin (roundedXs p) ∈ roundedXs p ∧ listMax (roundedXs p) ∈ roundedXs p ∧
  listMin (roundedYs p) ∈ roundedYs p ∧ listMax (roundedYs p) ∈ roundedYs p

/-- Conclusion for claim C7 (as amended): rectangle-to-mask conversion
returns an all-ones bitmap of shape `(round(height), round(width))` with
offset `(round(x), round(y))`. -/
def C7Concl (fill : Mat → List (ℤ × ℤ) → Mat) (r : Rectangle) : Prop :=
  Region.convert fill (.rectangle r) .MASK = .ok (.mask
    ⟨onesMat (pyRound r.height).toNat (pyRound r.width).toNat,
     (pyRound r.x, pyRound r.y)⟩) ∧
  MatDims (onesMat (pyRound r.height).toNat (pyRound r.width).toNat)
    (pyRound r.height).toNat (pyRound r.width).toNat ∧
  (∀ row ∈ onesMat (pyRound r.height).toNat (pyRound r.width).toNat,
    ∀ v ∈ row, v = 1)

/-! Helper lemmas about list access, matrix construction and normalization. -/

theorem getD_default_or_mem {α : Type} (l : List α) (n : ℕ) (d : α) :
    l.getD n d = d ∨ l.getD n d ∈ l := by
  rcases lt_or_le n l.length with h | h
  · right
    rw [List.getD_eq_getElem?_getD, List.getElem?_eq_getElem h]
    exact List.getElem_mem h
  · left
    rw [List.getD_eq_getElem?_getD, List.getElem?_eq_none h]
    rfl

theorem cellN_01 {m : Mat} (h01 : Entries01 m) (r c : ℕ) :
    cellN m r c = 0 ∨ cellN m r c = 1 := by
  unfold cellN
  rcases getD_default_or_mem m r [] with h | h
  · rw [h]; left; rfl
  · rcases getD_default_or_mem (m.getD r []) c 0 with h2 | h2
    · left; exact h2
    · exact h01 _ h _ h2

theorem cellI_01 {m : Mat} (h01 : Entries01 m) (r c : ℤ) :
    cellI m r c = 0 ∨ cellI m r c = 1 := by
  unfold cellI
  split
  · exact cellN_01 h01 _ _
  · left; rfl

theorem genMat_length (h w : ℕ) (f : ℕ → ℕ → ℤ) : (genMat h w f).length = h := by
  simp [genMat]

theorem genMat_rows {h w : ℕ} {f : ℕ → ℕ → ℤ} :
    ∀ row ∈ genMat h w f, row.length = w := by
  intro row hr
  simp only [genMat, List.mem_map, List.mem_range] at hr
  obtain ⟨r, _, rfl⟩ := hr
  simp

theorem genMat_entries {h w : ℕ} {f : ℕ → ℕ → ℤ} :
    ∀ row ∈ genMat h w f, ∀ v ∈ row, ∃ r c, v = f r c := by
  intro row hr v hv
  simp only [genMat, List.mem_map, List.mem_range] at hr
  obtain ⟨r, _, rfl⟩ := hr
  simp only [List.mem_map, List.mem_range] at hv
  obtain ⟨c, _, rfl⟩ := hv
  exact ⟨r, c, rfl⟩

theorem zerosMat_dims (h w : ℕ) : MatDims (zerosMat h w) h w := by
  constructor
  · simp [zerosMat]
  · intro row hr
    rw [List.eq_of_mem_replicate hr]
    simp

theorem zerosMat_entries01 (h w : ℕ) : Entries01 (zerosMat h w) := by
  intro row hr v hv
  rw [List.eq_of_mem_replicate hr] at hv
  left
  exact List.eq_of_mem_replicate hv

theorem onesMat_dims (h w : ℕ) : MatDims (onesMat h w) h w := by
  constructor
  · simp [onesMat]
  · intro row hr
    rw [List.eq_of_mem_replicate hr]
    simp

theorem onesMat_entries (h w : ℕ) : ∀ row ∈ onesMat h w, ∀ v ∈ row, v = 1 := by
  intro row hr v hv
  rw [List.eq_of_mem_replicate hr] at hv
  exact List.eq_of_mem_replicate hv

theorem normalizeEntry_01 (v : ℤ) : normalizeEntry v = 0 ∨ normalizeEntry v = 1 := by
  unfold normalizeEntry
  split <;> simp

theorem normalize_entries01 (input : Mat) : Entries01 (Mask.normalize input) := by
  intro row hr v hv
  simp only [Mask.normalize, List.mem_map] at hr
  obtain ⟨row0, _, rfl⟩ := hr
  simp only [List.mem_map] at hv
  obtain ⟨v0, _, rfl⟩ := hv
  exact normalizeEntry_01 v0

theorem getD_map_default {α β : Type} (f : α → β) (d : α) (e : β) (he : f d = e)
    (l : List α) (n : ℕ) : (l.map f).getD n e = f (l.getD n d) := by
  rcases lt_or_le n l.length with h | h
  · rw [List.getD_eq_getElem?_getD, List.getElem?_eq_getElem (by simpa using h),
      List.getD_eq_getElem?_getD, List.getElem?_eq_getElem h]
    simp
  · rw [List.getD_eq_getElem?_getD, List.getElem?_eq_none (by simpa using h),
      List.getD_eq_getElem?_getD, List.getElem?_eq_none h]
    simpa using he.symm

theorem cellN_normalize (input : Mat) (r c : ℕ) :
    cellN (Mask.normalize input) r c = normalizeEntry (cellN input r c) := by
  unfold cellN Mask.normalize
  rw [getD_map_default (List.map normalizeEntry) [] [] rfl input r,
    getD_map_default normalizeEntry 0 0 (by decide) (input.getD r []) c]

theorem sliceMat_entries01 {m : Mat} (h01 : Entries01 m) (y0 y1 x0 x1 : ℕ) :
    Entries01 (sliceMat m y0 y1 x0 x1) := by
  intro row hr v hv
  simp only [sliceMat, List.mem_map] at hr
  obtain ⟨row0, hrow0, rfl⟩ := hr
  have hrow0m : row0 ∈ m :=
    List.drop_subset _ _ (List.take_subset _ _ hrow0)
  have hv0 : v ∈ row0 :=
    List.drop_subset _ _ (List.take_subset _ _ hv)
  exact h01 _ hrow0m _ hv0

theorem rows_eq_matWidth {b : Mat} {w : ℕ} (hb : ∀ row ∈ b, row.length = w) :
    ∀ row ∈ b, row.length = matWidth b := by
  cases b with
  | nil => intro row hr; cases hr
  | cons r0 rest =>
    intro row hr
    have h0 : r0.length = w := hb r0 (by simp)
    have hrow := hb row hr
    simp [matWidth, List.headD_cons, h0, hrow]

theorem padCrop_dims (b : Mat) (ow oh : ℕ)
    (hb : ∀ row ∈ b, row.length = matWidth b) :
    MatDims (padCrop b ow oh) oh ow := by
  have main : ∀ b1 : Mat, (∀ row ∈ b1, row.length = min ow (matWidth b)) →
      MatDims ((if oh < b1.length then b1.take oh else b1).map
          (fun row => row ++ List.replicate (ow - min ow (matWidth b)) 0) ++
        List.replicate (oh - min oh b1.length)
          (List.replicate (min ow (matWidth b) + (ow - min ow (matWidth b))) 0))
        oh ow := by
    intro b1 hb1
    have hminw : min ow (matWidth b) + (ow - min ow (matWidth b)) = ow := by omega
    constructor
    · simp only [List.length_append, List.length_map, List.length_replicate]
      by_cases hoh : oh < b1.length
      · rw [if_pos hoh]
        simp only [List.length_take]
        omega
      · rw [if_neg hoh]
        omega
    · intro row hrow
      rcases List.mem_append.mp hrow with hrow | hrow
      · obtain ⟨row0, hrow0, rfl⟩ := List.mem_map.mp hrow
        have hrow0b1 : row0 ∈ b1 := by
          by_cases hoh : oh < b1.length
          · rw [if_pos hoh] at hrow0
            exact List.take_subset _ _ hrow0
          · rwa [if_neg hoh] at hrow0
        simp only [List.length_append, List.length_replicate, hb1 row0 hrow0b1]
        omega
      · rw [List.eq_of_mem_replicate hrow]
        simp only [List.length_replicate]
        omega
  simp only [padCrop]
  refine main (if ow < matWidth b then b.map (fun row => row.take ow) else b) ?_
  intro row hrow
  by_cases hx : ow < matWidth b
  · rw [if_pos hx] at hrow
    obtain ⟨row0, hrow0, rfl⟩ := List.mem_map.mp hrow
    simp only [List.length_take, hb row0 hrow0]
  · rw [if_neg hx] at hrow
    rw [hb row hrow]
    omega

theorem ite_01 {P : Prop} [Decidable P] {x y : ℤ} (hx : x = 0 ∨ x = 1)
    (hy : y = 0 ∨ y = 1) :
    (if P then x else y) = 0 ∨ (if P then x else y) = 1 := by
  split
  · exact hx
  · exact hy

theorem padCrop_entries01 {b : Mat} (h01 : Entries01 b) (ow oh : ℕ) :
    Entries01 (padCrop b ow oh) := by
  have hb1 : ∀ row0 ∈ (if ow < matWidth b then b.map (fun row => row.take ow) else b),
      ∀ v ∈ row0, v = 0 ∨ v = 1 := by
    intro row0 hrow0 v hv
    by_cases hx : ow < matWidth b
    · rw [if_pos hx] at hrow0
      obtain ⟨row1, hrow1, rfl⟩ := List.mem_map.mp hrow0
      exact h01 _ hrow1 _ (List.take_subset _ _ hv)
    · rw [if_neg hx] at hrow0
      exact h01 _ hrow0 _ hv
  simp only [padCrop]
  intro row hrow v hv
  rcases List.mem_append.mp hrow with hrow | hrow
  · obtain ⟨row0, hrow0, rfl⟩ := List.mem_map.mp hrow
    have hrow0b1 : row0 ∈ (if ow < matWidth b then b.map (fun row => row.take ow) else b) := by
      by_cases hoh :
          oh < (if ow < matWidth b then b.map (fun row => row.take ow) else b).length
      · rw [if_pos hoh] at hrow0
        exact List.take_subset _ _ hrow0
      · rwa [if_neg hoh] at hrow0
    rcases List.mem_append.mp hv with hv | hv
    · exact hb1 _ hrow0b1 _ hv
    · left
      exact List.eq_of_mem_replicate hv
  · rw [List.eq_of_mem_replicate hrow] at hv
    left
    exact List.eq_of_mem_replicate hv

theorem naturalCanvas_dims (m : Mask) :
    MatDims m.naturalCanvas ((m.mask.length : ℤ) + m.offset.2).toNat
      ((matWidth m.mask : ℤ) + m.offset.1).toNat := by
  simp only [Mask.naturalCanvas]
  split
  · refine ⟨genMat_length _ _ _, ?_⟩
    intro row hr
    exact genMat_rows row hr
  · exact zerosMat_dims _ _

theorem naturalCanvas_entries01 {m : Mask} (h01 : Entries01 m.mask) :
    Entries01 m.naturalCanvas := by
  simp only [Mask.naturalCanvas]
  split
  · intro row hr v hv
    obtain ⟨r, c, rfl⟩ := genMat_entries row hr v hv
    exact ite_01 (cellI_01 h01 _ _) (Or.inl rfl)
  · exact zerosMat_entries01 _ _

/-! Lemmas characterizing `mask2bbox` as the tight bounding box. -/

theorem nzCols_pairwise (m : Mat) : (nzCols m).Pairwise (· < ·) :=
  List.Pairwise.sublist (List.filter_sublist _) (List.pairwise_lt_range _)

theorem nzRows_pairwise (m : Mat) : (nzRows m).Pairwise (· < ·) :=
  List.Pairwise.sublist (List.filter_sublist _) (List.pairwise_lt_range _)

theorem headD_mem {l : List ℕ} (h : l ≠ []) : l.headD 0 ∈ l := by
  cases l with
  | nil => exact absurd rfl h
  | cons a t => simp [List.headD_cons]

theorem headD_le_of_pairwise {l : List ℕ} (hp : l.Pairwise (· < ·)) {a : ℕ}
    (ha : a ∈ l) : l.headD 0 ≤ a := by
  cases l with
  | nil => cases ha
  | cons x t =>
    rw [List.headD_cons]
    rcases List.mem_cons.mp ha with rfl | ha
    · exact le_refl a
    · exact le_of_lt ((List.pairwise_cons.mp hp).1 a ha)

theorem le_revHead_of_pairwise {l : List ℕ} (hp : l.Pairwise (· < ·)) {a : ℕ}
    (ha : a ∈ l) : a ≤ l.reverse.headD 0 := by
  have hp' : l.reverse.Pairwise (fun x y => y < x) := List.pairwise_reverse.mpr hp
  have ha' : a ∈ l.reverse := List.mem_reverse.mpr ha
  cases hrev : l.reverse with
  | nil =>
    rw [hrev] at ha'
    cases ha'
  | cons x t =>
    rw [hrev] at ha' hp'
    rw [List.headD_cons]
    rcases List.mem_cons.mp ha' with rfl | ha2
    · exact le_refl a
    · exact le_of_lt ((List.pairwise_cons.mp hp').1 a ha2)

theorem mem_nzCols {m : Mat} {c : ℕ} :
    c ∈ nzCols m ↔ c < matWidth m ∧ ∃ row ∈ m, row.getD c 0 ≠ 0 := by
  simp [nzCols, List.mem_filter, List.mem_range, colNonzero, List.any_eq_true]

theorem mem_nzRows {m : Mat} {r : ℕ} :
    r ∈ nzRows m ↔ r < m.length ∧ ∃ v ∈ m.getD r [], v ≠ 0 := by
  simp [nzRows, List.mem_filter, List.mem_range, rowNonzero, List.any_eq_true]

theorem cellN_ne_col {m : Mat} {r c : ℕ}
    (hrect : ∀ row ∈ m, row.length = matWidth m) (h : cellN m r c ≠ 0) :
    c ∈ nzCols m := by
  unfold cellN at h
  rcases getD_default_or_mem m r [] with h0 | h0
  · rw [h0] at h
    simp at h
  · rcases lt_or_le c (m.getD r []).length with hc | hc
    · refine mem_nzCols.mpr ⟨?_, m.getD r [], h0, h⟩
      rw [hrect _ h0] at hc
      exact hc
    · rw [List.getD_eq_getElem?_getD, List.getElem?_eq_none hc] at h
      simp at h

theorem cellN_ne_row {m : Mat} {r c : ℕ} (h : cellN m r c ≠ 0) : r ∈ nzRows m := by
  unfold cellN at h
  rcases lt_or_le r m.length with hr | hr
  · refine mem_nzRows.mpr ⟨hr, ?_⟩
    rcases getD_default_or_mem (m.getD r []) c 0 with h1 | h1
    · exact absurd h1 h
    · exact ⟨_, h1, h⟩
  · rw [List.getD_eq_getElem?_getD m r [], List.getElem?_eq_none hr] at h
    simp at h

theorem exists_cell_of_mem_nzCols {m : Mat} {c : ℕ} (h : c ∈ nzCols m) :
    ∃ r, cellN m r c ≠ 0 := by
  obtain ⟨-, row, hrow, hne⟩ := mem_nzCols.mp h
  obtain ⟨r, hr, rfl⟩ := List.mem_iff_getElem.mp hrow
  refine ⟨r, ?_⟩
  unfold cellN
  rw [List.getD_eq_getElem?_getD m r [], List.getElem?_eq_getElem hr]
  simpa using hne

theorem exists_cell_of_mem_nzRows {m : Mat} {r : ℕ} (h : r ∈ nzRows m) :
    ∃ c, cellN m r c ≠ 0 := by
  obtain ⟨-, v, hv, hne⟩ := mem_nzRows.mp h
  obtain ⟨c, hc, rfl⟩ := List.mem_iff_getElem.mp hv
  refine ⟨c, ?_⟩
  unfold cellN
  rw [List.getD_eq_getElem?_getD (m.getD r []) c 0, List.getElem?_eq_getElem hc]
  simpa using hne

theorem mask2bbox_tight {m : Mat} (hrect : ∀ row ∈ m, row.length = matWidth m)
    (hnz : ∃ r c, cellN m r c ≠ 0) : BBoxTight m (mask2bbox m) := by
  obtain ⟨r0, c0, h0⟩ := hnz
  have hc0 : c0 ∈ nzCols m := cellN_ne_col hrect h0
  have hr0 : r0 ∈ nzRows m := cellN_ne_row h0
  have hcne : nzCols m ≠ [] := fun hh => by rw [hh] at hc0; cases hc0
  have hrne : nzRows m ≠ [] := fun hh => by rw [hh] at hr0; cases hr0
  have hbbox : mask2bbox m = ((nzCols m).headD 0, (nzRows m).headD 0,
      (nzCols m).reverse.headD 0 + 1, (nzRows m).reverse.headD 0 + 1) := by
    unfold mask2bbox
    rw [if_neg (by simp [hcne, hrne])]
  have hrevc : (nzCols m).reverse.headD 0 ∈ nzCols m :=
    List.mem_reverse.mp
      (headD_mem (by simpa [List.reverse_eq_nil_iff] using hcne))
  have hrevr : (nzRows m).reverse.headD 0 ∈ nzRows m :=
    List.mem_reverse.mp
      (headD_mem (by simpa [List.reverse_eq_nil_iff] using hrne))
  rw [hbbox]
  refine ⟨?_, ?_, ?_, ?_, ?_⟩
  · intro r c hrc
    have hc := cellN_ne_col hrect hrc
    have hr := cellN_ne_row hrc
    have h1 := headD_le_of_pairwise (nzCols_pairwise m) hc
    have h2 := le_revHead_of_pairwise (nzCols_pairwise m) hc
    have h3 := headD_le_of_pairwise (nzRows_pairwise m) hr
    have h4 := le_revHead_of_pairwise (nzRows_pairwise m) hr
    exact ⟨h1, Nat.lt_succ_of_le h2, h3, Nat.lt_succ_of_le h4⟩
  · exact exists_cell_of_mem_nzCols (headD_mem hcne)
  · show ∃ r, cellN m r ((nzCols m).reverse.headD 0 + 1 - 1) ≠ 0
    simpa using exists_cell_of_mem_nzCols hrevc
  · exact exists_cell_of_mem_nzRows (headD_mem hrne)
  · show ∃ c, cellN m ((nzRows m).reverse.headD 0 + 1 - 1) c ≠ 0
    simpa using exists_cell_of_mem_nzRows hrevr

/-! Fold-based minimum and maximum lemmas for `listMin` and `listMax`. -/

theorem foldl_min_le_init (l : List ℤ) (a : ℤ) : l.foldl min a ≤ a := by
  induction l generalizing a with
  | nil => simp
  | cons x xs ih => exact le_trans (ih (min a x)) (min_le_left _ _)

theorem foldl_min_le_mem (l : List ℤ) : ∀ (a : ℤ) {v : ℤ}, v ∈ l → l.foldl min a ≤ v := by
  induction l with
  | nil =>
    intro a v hv
    cases hv
  | cons x xs ih =>
    intro a v hv
    rcases List.mem_cons.mp hv with rfl | hv
    · exact le_trans (foldl_min_le_init xs (min a v)) (min_le_right _ _)
    · exact ih _ hv

theorem foldl_min_mem_or (l : List ℤ) (a : ℤ) :
    l.foldl min a = a ∨ l.foldl min a ∈ l := by
  induction l generalizing a with
  | nil => left; rfl
  | cons x xs ih =>
    rcases ih (min a x) with h | h
    · rcases min_choice a x with hm | hm
      · left
        rw [List.foldl_cons, h, hm]
      · right
        rw [List.foldl_cons, h, hm]
        exact List.mem_cons_self _ _
    · right
      exact List.mem_cons_of_mem _ h

theorem foldl_max_le_init (l : List ℤ) (a : ℤ) : a ≤ l.foldl max a := by
  induction l generalizing a with
  | nil => simp
  | cons x xs ih => exact le_trans (le_max_left _ _) (ih (max a x))

theorem foldl_max_le_mem (l : List ℤ) : ∀ (a : ℤ) {v : ℤ}, v ∈ l → v ≤ l.foldl max a := by
  induction l with
  | nil =>
    intro a v hv
    cases hv
  | cons x xs ih =>
    intro a v hv
    rcases List.mem_cons.mp hv with rfl | hv
    · exact le_trans (le_max_right a v) (foldl_max_le_init xs (max a v))
    · exact ih _ hv

theorem foldl_max_mem_or (l : List ℤ) (a : ℤ) :
    l.foldl max a = a ∨ l.foldl max a ∈ l := by
  induction l generalizing a with
  | nil => left; rfl
  | cons x xs ih =>
    rcases ih (max a x) with h | h
    · rcases max_choice a x with hm | hm
      · left
        rw [List.foldl_cons, h, hm]
      · right
        rw [List.foldl_cons, h, hm]
        exact List.mem_cons_self _ _
    · right
      exact List.mem_cons_of_mem _ h

theorem listMin_le {l : List ℤ} (hne : l ≠ []) : ∀ v ∈ l, listMin l ≤ v := by
  cases l with
  | nil => exact absurd rfl hne
  | cons x xs =>
    intro v hv
    rcases List.mem_cons.mp hv with rfl | hv
    · exact foldl_min_le_init _ _
    · exact foldl_min_le_mem _ _ hv

theorem listMin_mem {l : List ℤ} (hne : l ≠ []) : listMin l ∈ l := by
  cases l with
  | nil => exact absurd rfl hne
  | cons x xs =>
    show xs.foldl min x ∈ x :: xs
    rcases foldl_min_mem_or xs x with h | h
    · rw [h]
      exact List.mem_cons_self _ _
    · exact List.mem_cons_of_mem _ h

theorem listMax_ge {l : List ℤ} (hne : l ≠ []) : ∀ v ∈ l, v ≤ listMax l := by
  cases l with
  | nil => exact absurd rfl hne
  | cons x xs =>
    intro v hv
    rcases List.mem_cons.mp hv with rfl | hv
    · exact foldl_max_le_init _ _
    · exact foldl_max_le_mem _ _ hv

theorem listMax_mem {l : List ℤ} (hne : l ≠ []) : listMax l ∈ l := by
  cases l with
  | nil => exact absurd rfl hne
  | cons x xs =>
    show xs.foldl max x ∈ x :: xs
    rcases foldl_max_mem_or xs x with h | h
    · rw [h]
      exact List.mem_cons_self _ _
    · exact List.mem_cons_of_mem _ h

theorem normalize_onesMat (h w : ℕ) : Mask.normalize (onesMat h w) = onesMat h w := by
  have h1 : normalizeEntry 1 = 1 := by decide
  unfold Mask.normalize onesMat
  rw [List.map_replicate, List.map_replicate, h1]

theorem optimizeStep_entries01 {m : Mask} (h01 : Entries01 m.mask) :
    Entries01 (Mask.optimizeStep m).mask := by
  show Entries01 (sliceMat m.mask (mask2bbox m.mask).2.1 (mask2bbox m.mask).2.2.2
    (mask2bbox m.mask).1 (mask2bbox m.mask).2.2.1)
  exact sliceMat_entries01 h01 _ _ _ _

/-! Claim theorems, one per claim of the specification review, each with its
counterexample or witness where applicable. -/

/-- C1 (counterexample): on the mask with bitmap `[[1]]` and offset `(5, 7)`,
`convert(POLYGON)` emits the local bounding-box corners
`(0,0),(1,0),(1,1),(0,1)`; the claim requires the offset to be added, which
would give the different point list `(5,7),(6,7),(6,8),(5,8)`. -/
theorem mask_to_polygon_offset_cx :
    Region.convert fill0 (.mask ⟨[[1]], (5, 7)⟩) .POLYGON =
      .ok (.polygon (Polygon.ofPoints [(0, 0), (1, 0), (1, 1), (0, 1)])) ∧
    ([((0 : ℚ), (0 : ℚ)), (1, 0), (1, 1), (0, 1)] : List (ℚ × ℚ)) ≠
      [(5, 7), (6, 7), (6, 8), (5, 8)] := by
  constructor
  · decide
  · decide

/-- C1 (as amended): for every rectangular mask bitmap with at least one
nonzero entry, `convert(POLYGON)` returns the 4-point axis-aligned
quadrilateral whose vertices are the corners of the tight bounding box of
the nonzero entries, ordered as in rectangle-to-polygon conversion — but
expressed in the bitmap's local coordinates: the mask's offset is not
added. -/
theorem mask_to_polygon_corners (fill : Mat → List (ℤ × ℤ) → Mat) (m : Mask)
    (hrect : ∀ row ∈ m.mask, row.length = matWidth m.mask)
    (hnz : ∃ r c, cellN m.mask r c ≠ 0) : C1Concl fill m :=
  ⟨rfl, mask2bbox_tight hrect hnz⟩

/-- C1 witness: the amended theorem applied to a concrete 2×2 mask with a
single foreground pixel and nonzero offset. -/
theorem mask_to_polygon_corners_witness :
    C1Concl fill0 ⟨[[0, 1], [0, 0]], (7, 9)⟩ :=
  mask_to_polygon_corners fill0 ⟨[[0, 1], [0, 0]], (7, 9)⟩ (by decide)
    ⟨0, 1, by decide⟩

/-- C2 (counterexample): a 1×1 mask at offset `(0, -2)` has natural extent
`1 + (-2) = -1 < 0`, so `get_array` passes a negative dimension to
`np.zeros` and raises `ValueError` even though an explicit 3×3 output size
was requested — the claim demands a 3×3 bitmap. -/
theorem get_array_negative_extent_cx :
    Mask.getArray ⟨[[1]], (0, -2)⟩ (some (3, 3)) = .error .valueError := by
  decide

/-- C2 (as amended): for every mask whose bitmap values are 0/1 and whose
natural extent `offset + size` is nonnegative on both axes, `get_array`
with an explicit output size returns a bitmap of exactly the requested
dimensions with all values in 0/1 (clipping negative-offset parts), and
with no requested size returns a canvas of exactly the natural extent. -/
theorem get_array_dims_values (m : Mask) (ow oh : ℕ) (h01 : Entries01 m.mask)
    (hW : 0 ≤ (matWidth m.mask : ℤ) + m.offset.1)
    (hH : 0 ≤ (m.mask.length : ℤ) + m.offset.2) : C2Concl m ow oh := by
  have hcond : ¬((m.mask.length : ℤ) + m.offset.2 < 0 ∨
      (matWidth m.mask : ℤ) + m.offset.1 < 0) := by omega
  have hdims := naturalCanvas_dims m
  have hent := naturalCanvas_entries01 h01
  constructor
  · refine ⟨padCrop m.naturalCanvas ow oh, ?_, ?_, ?_⟩
    · simp only [Mask.getArray]
      rw [if_neg hcond]
    · exact padCrop_dims _ _ _ (rows_eq_matWidth hdims.2)
    · exact padCrop_entries01 hent _ _
  · refine ⟨m.naturalCanvas, ?_, hdims, hent⟩
    simp only [Mask.getArray]
    rw [if_neg hcond]

/-- C2 witness: the amended theorem applied to a 2×2 all-ones mask at offset
`(-1, -1)` with requested output size 3×2. -/
theorem get_array_dims_values_witness :
    C2Concl ⟨[[1, 1], [1, 1]], (-1, -1)⟩ 3 2 :=
  get_array_dims_values ⟨[[1, 1], [1, 1]], (-1, -1)⟩ 3 2
    (by unfold Entries01; decide) (by decide) (by decide)

/-- C3 (counterexample): `copy.copy` keeps the `points` reference, so after
copying the polygon object with reference 0, writing point 0 of the copy's
list overwrites the list the original reads: the original's view changes
from `[(1,1)]` to `[(9,9)]` — the claim says mutating one never changes the
other. -/
theorem copy_aliasing_cx :
    (PolygonObj.copyShallow ⟨0, 1⟩).pointsRef = (0 : ℕ) ∧
    PHeap.readPoints ⟨[[(1, 1)]], []⟩ ⟨0, 1⟩ = [(1, 1)] ∧
    PHeap.readPoints
      (PHeap.setPoint ⟨[[(1, 1)]], []⟩ (PolygonObj.copyShallow ⟨0, 1⟩).pointsRef 0 (9, 9))
      ⟨0, 1⟩ = [(9, 9)] := by
  refine ⟨rfl, ?_, ?_⟩
  · decide
  · decide

/-- C3 (as amended): `copy()` returns a new object with identical field
values, but for Polygon and Mask it is a shallow copy: the copy holds the
same backing-store reference, so both objects read the same list/bitmap and
a mutation through the copy's reference is seen through the original. -/
theorem copy_shallow_fields (p : PolygonObj) (mo : MaskObj) (h : PHeap)
    (idx : ℕ) (v : ℚ × ℚ) :
    p.copyShallow = p ∧ mo.copyShallow = mo ∧
    h.readPoints p.copyShallow = h.readPoints p ∧
    h.readMask mo.copyShallow = h.readMask mo ∧
    (h.setPoint p.copyShallow.pointsRef idx v).readPoints p =
      (h.setPoint p.pointsRef idx v).readPoints p.copyShallow :=
  ⟨rfl, rfl, rfl, rfl, rfl⟩

/-- C4 (counterexample): `Special` is not the only variant whose `convert`
can fail: a rectangle asked to convert to `SPECIAL` raises
`ConversionException` as well. -/
theorem rectangle_to_special_cx :
    Region.convert fill0 (.rectangle ⟨0, 0, 0, 0⟩) .SPECIAL =
      .error .conversionException := rfl

/-- C4 (as amended): `Special.convert` raises `ConversionException` for all
three non-SPECIAL targets and returns an equal-valued copy for SPECIAL; in
addition each of the other three variants raises `ConversionException` when
asked to convert to SPECIAL. -/
theorem convert_failure_matrix (fill : Mat → List (ℤ × ℤ) → Mat) (code : ℤ)
    (r : Rectangle) (p : Polygon) (mm : Mask) :
    Region.convert fill (.special code) .RECTANGLE = .error .conversionException ∧
    Region.convert fill (.special code) .POLYGON = .error .conversionException ∧
    Region.convert fill (.special code) .MASK = .error .conversionException ∧
    Region.convert fill (.special code) .SPECIAL = .ok (.special code) ∧
    Region.convert fill (.rectangle r) .SPECIAL = .error .conversionException ∧
    Region.convert fill (.polygon p) .SPECIAL = .error .conversionException ∧
    Region.convert fill (.mask mm) .SPECIAL = .error .conversionException :=
  ⟨rfl, rfl, rfl, rfl, rfl, rfl, rfl⟩

/-- C5 (counterexample): for `Rectangle(0, 0, -1, 0)` — the spec allows
negative widths — the round trip through POLYGON returns
`Rectangle(-1, 0, 1, 0)`, not the original: the min/max scan of the polygon
vertices flips a negative extent. -/
theorem rect_polygon_roundtrip_negative_cx :
    Region.convert fill0 (.polygon (Rectangle.toPolygon ⟨0, 0, -1, 0⟩)) .RECTANGLE =
      .ok (.rectangle ⟨-1, 0, 1, 0⟩) ∧
    Rectangle.mk (-1) 0 1 0 ≠ ⟨0, 0, -1, 0⟩ := by
  constructor
  · have hrect : Polygon.toRectangle (Rectangle.toPolygon ⟨0, 0, -1, 0⟩) =
        ⟨-1, 0, 1, 0⟩ := by
      unfold Polygon.toRectangle Rectangle.toPolygon Polygon.ofPoints
      simp only [List.foldl_cons, List.foldl_nil]
      rw [Rectangle.mk.injEq]
      simp only [min_def, max_def]
      norm_num [FLOAT_MAX]
    have hconv : Region.convert fill0
        (.polygon (Rectangle.toPolygon ⟨0, 0, -1, 0⟩)) .RECTANGLE =
        .ok (.rectangle (Polygon.toRectangle (Rectangle.toPolygon ⟨0, 0, -1, 0⟩))) :=
      rfl
    rw [hconv, hrect]
  · intro hcontra
    rw [Rectangle.mk.injEq] at hcontra
    norm_num at hcontra

/-- C5 (as amended): for every rectangle with integer-aligned fields,
nonnegative width and height, and position within the double range,
converting to POLYGON yields the clockwise 4-point trace from the top-left
corner and converting back to RECTANGLE restores exactly the original
`(x, y, width, height)`. -/
theorem rect_polygon_roundtrip (fill : Mat → List (ℤ × ℤ) → Mat)
    (x y w h : ℤ) (hw : 0 ≤ w) (hh : 0 ≤ h)
    (hx : |(x : ℚ)| ≤ FLOAT_MAX) (hy : |(y : ℚ)| ≤ FLOAT_MAX) :
    C5Concl fill x y w h := by
  obtain ⟨hx1, hx2⟩ := abs_le.mp hx
  obtain ⟨hy1, hy2⟩ := abs_le.mp hy
  have hwq : (0 : ℚ) ≤ (w : ℚ) := by exact_mod_cast hw
  have hhq : (0 : ℚ) ≤ (h : ℚ) := by exact_mod_cast hh
  have hxw : (x : ℚ) ≤ (x : ℚ) + (w : ℚ) := by linarith
  have hyh : (y : ℚ) ≤ (y : ℚ) + (h : ℚ) := by linarith
  refine ⟨rfl, rfl, ?_⟩
  have hrect : Polygon.toRectangle
      (Rectangle.toPolygon ⟨(x : ℚ), (y : ℚ), (w : ℚ), (h : ℚ)⟩) =
      ⟨(x : ℚ), (y : ℚ), (w : ℚ), (h : ℚ)⟩ := by
    unfold Polygon.toRectangle Rectangle.toPolygon Polygon.ofPoints
    simp only [List.foldl_cons, List.foldl_nil]
    have htop : min (min (min (min FLOAT_MAX (y : ℚ)) (y : ℚ))
        ((y : ℚ) + (h : ℚ))) ((y : ℚ) + (h : ℚ)) = (y : ℚ) := by
      rw [min_eq_right hy2, min_self, min_eq_left hyh, min_eq_left hyh]
    have hbot : max (max (max (max (-FLOAT_MAX) (y : ℚ)) (y : ℚ))
        ((y : ℚ) + (h : ℚ))) ((y : ℚ) + (h : ℚ)) = (y : ℚ) + (h : ℚ) := by
      rw [max_eq_right hy1, max_self, max_eq_right hyh, max_self]
    have hleft : min (min (min (min FLOAT_MAX (x : ℚ)) ((x : ℚ) + (w : ℚ)))
        ((x : ℚ) + (w : ℚ))) (x : ℚ) = (x : ℚ) := by
      rw [min_eq_right hx2, min_eq_left hxw, min_eq_left hxw, min_self]
    have hright : max (max (max (max (-FLOAT_MAX) (x : ℚ)) ((x : ℚ) + (w : ℚ)))
        ((x : ℚ) + (w : ℚ))) (x : ℚ) = (x : ℚ) + (w : ℚ) := by
      rw [max_eq_right hx1, max_eq_right hxw, max_self, max_eq_left hxw]
    rw [Rectangle.mk.injEq]
    refine ⟨hleft, htop, ?_, ?_⟩
    · rw [hright, hleft]
      ring
    · rw [hbot, htop]
      ring
  have hconv : Region.convert fill
      (.polygon (Rectangle.toPolygon ⟨(x : ℚ), (y : ℚ), (w : ℚ), (h : ℚ)⟩)) .RECTANGLE =
      .ok (.rectangle (Polygon.toRectangle
        (Rectangle.toPolygon ⟨(x : ℚ), (y : ℚ), (w : ℚ), (h : ℚ)⟩))) := rfl
  rw [hconv, hrect]

/-- C5 witness: the amended theorem applied to `Rectangle(1, 2, 3, 4)`. -/
theorem rect_polygon_roundtrip_witness : C5Concl fill0 1 2 3 4 :=
  rect_polygon_roundtrip fill0 1 2 3 4 (by decide) (by decide)
    (by rw [abs_le]; constructor <;> norm_num [FLOAT_MAX])
    (by rw [abs_le]; constructor <;> norm_num [FLOAT_MAX])

/-- C6 (counterexample): for the single-vertex polygon at `(-2, 0)` the
computed bitmap width `max(x) - tl.x + 1 = -2 - 0 + 1 = -1` is negative, so
`np.zeros` raises `ValueError`: `convert(MASK)` does not return a mask for
every polygon. -/
theorem polygon_to_mask_negative_cx :
    Region.convert fill0 (.polygon ⟨[(-2, 0)], 1⟩) .MASK = .error .valueError := by
  have hr2 : pyRound (-2 : ℚ) = -2 := by norm_num [pyRound]
  have hr0 : pyRound (0 : ℚ) = 0 := by norm_num [pyRound]
  have hpx : roundedXs ⟨[(-2, 0)], 1⟩ = [-2] := by simp [roundedXs, hr2]
  have hpy : roundedYs ⟨[(-2, 0)], 1⟩ = [0] := by simp [roundedYs, hr0]
  have hconv : Region.convert fill0 (.polygon ⟨[(-2, 0)], 1⟩) .MASK =
      (match Polygon.toMask fill0 ⟨[(-2, 0)], 1⟩ with
        | .ok mm => PyResult.ok (Region.mask mm)
        | .error e => .error e) := rfl
  have htm : Polygon.toMask fill0 ⟨[(-2, 0)], 1⟩ = .error .valueError := by
    unfold Polygon.toMask
    rw [hpx, hpy]
    decide
  rw [hconv, htm]

/-- C6 (as amended): for every polygon with at least one vertex whose
rounded coordinates reach at least -1 on each axis (so the bitmap
dimensions are nonnegative), `convert(MASK)` rounds the vertices, clamps
the bounding-box top-left at 0 per axis, allocates the zero bitmap of size
`(max(y) - tl.y + 1) × (max(x) - tl.x + 1)`, rasterizes the vertices
translated by `-tl` through the external fill routine, and returns the mask
with the never-negative offset `tl`. -/
theorem polygon_to_mask_structure (fill : Mat → List (ℤ × ℤ) → Mat)
    (p : Polygon) (hne : p.points ≠ [])
    (hx : -1 ≤ listMax (roundedXs p)) (hy : -1 ≤ listMax (roundedYs p)) :
    C6Concl fill p := by
  have hxne : roundedXs p ≠ [] := fun hmap =>
    hne (by simpa [roundedXs] using hmap)
  have hyne : roundedYs p ≠ [] := fun hmap =>
    hne (by simpa [roundedYs] using hmap)
  have hminX := listMin_le hxne
  have hmaxX := listMax_ge hxne
  have hminY := listMin_le hyne
  have hmaxY := listMax_ge hyne
  have hmmX : listMin (roundedXs p) ≤ listMax (roundedXs p) :=
    hminX _ (listMax_mem hxne)
  have hmmY : listMin (roundedYs p) ≤ listMax (roundedYs p) :=
    hminY _ (listMax_mem hyne)
  have hwge : 0 ≤ listMax (roundedXs p) - max 0 (listMin (roundedXs p)) + 1 := by
    rcases le_total (listMin (roundedXs p)) 0 with h1 | h1
    · rw [max_eq_left h1]
      omega
    · rw [max_eq_right h1]
      omega
  have hhge : 0 ≤ listMax (roundedYs p) - max 0 (listMin (roundedYs p)) + 1 := by
    rcases le_total (listMin (roundedYs p)) 0 with h1 | h1
    · rw [max_eq_left h1]
      omega
    · rw [max_eq_right h1]
      omega
  have hcond : ¬(listMax (roundedXs p) - max 0 (listMin (roundedXs p)) + 1 < 0 ∨
      listMax (roundedYs p) - max 0 (listMin (roundedYs p)) + 1 < 0) := by
    omega
  refine ⟨?_, le_max_left _ _, le_max_left _ _,
    fun v hv => ⟨hminX v hv, hmaxX v hv⟩,
    fun v hv => ⟨hminY v hv, hmaxY v hv⟩,
    listMin_mem hxne, listMax_mem hxne, listMin_mem hyne, listMax_mem hyne⟩
  have hconv : Region.convert fill (.polygon p) .MASK =
      (match Polygon.toMask fill p with
        | .ok mm => PyResult.ok (Region.mask mm)
        | .error e => .error e) := rfl
  have htm : Polygon.toMask fill p = .ok (Mask.init
      (fill (zerosMat (listMax (roundedYs p) - max 0 (listMin (roundedYs p)) + 1).toNat
                      (listMax (roundedXs p) - max 0 (listMin (roundedXs p)) + 1).toNat)
            (((roundedXs p).zip (roundedYs p)).map fun q =>
              (q.1 - max 0 (listMin (roundedXs p)), q.2 - max 0 (listMin (roundedYs p)))))
      (max 0 (listMin (roundedXs p)), max 0 (listMin (roundedYs p))) false) := by
    unfold Polygon.toMask
    rw [if_neg hcond]
  rw [hconv, htm]

/-- C6 witness: the amended theorem applied to the concrete polygon with
vertices (6/5, -1/2) and (3, 2). -/
theorem polygon_to_mask_structure_witness :
    C6Concl fill0 ⟨[(6 / 5, -1 / 2), (3, 2)], 2⟩ := by
  have e1 : pyRound (6 / 5 : ℚ) = 1 := by norm_num [pyRound]
  have e2 : pyRound (-1 / 2 : ℚ) = 0 := by norm_num [pyRound]
  have e3 : pyRound (3 : ℚ) = 3 := by norm_num [pyRound]
  have e4 : pyRound (2 : ℚ) = 2 := by norm_num [pyRound]
  refine polygon_to_mask_structure fill0 ⟨[(6 / 5, -1 / 2), (3, 2)], 2⟩
    (by simp) ?_ ?_
  · show -1 ≤ listMax (roundedXs ⟨[(6 / 5, -1 / 2), (3, 2)], 2⟩)
    have hpx : roundedXs ⟨[(6 / 5, -1 / 2), (3, 2)], 2⟩ = [1, 3] := by
      simp [roundedXs, e1, e3]
    rw [hpx]
    decide
  · show -1 ≤ listMax (roundedYs ⟨[(6 / 5, -1 / 2), (3, 2)], 2⟩)
    have hpy : roundedYs ⟨[(6 / 5, -1 / 2), (3, 2)], 2⟩ = [0, 2] := by
      simp [roundedYs, e2, e4]
    rw [hpy]
    decide

/-- C7 (counterexample): for `Rectangle(0, 0, -1, 1)` — negative widths are
legal — `round(width) = -1` is passed to `np.ones`, which raises
`ValueError`: `convert(MASK)` does not return a mask for every
rectangle. -/
theorem rectangle_to_mask_negative_cx :
    Region.convert fill0 (.rectangle ⟨0, 0, -1, 1⟩) .MASK = .error .valueError := by
  have hm1 : pyRound (-1 : ℚ) = -1 := by norm_num [pyRound]
  have hcond : pyRound (Rectangle.mk (0 : ℚ) 0 (-1) 1).height < 0 ∨
      pyRound (Rectangle.mk (0 : ℚ) 0 (-1) 1).width < 0 := by
    right
    show pyRound (-1 : ℚ) < 0
    rw [hm1]
    norm_num
  have hconv : Region.convert fill0 (.rectangle ⟨0, 0, -1, 1⟩) .MASK =
      (match Rectangle.toMask ⟨0, 0, -1, 1⟩ with
        | .ok mm => PyResult.ok (Region.mask mm)
        | .error e => .error e) := rfl
  have htm : Rectangle.toMask ⟨0, 0, -1, 1⟩ = .error .valueError := by
    unfold Rectangle.toMask
    rw [if_pos hcond]
  rw [hconv, htm]

/-- C7 (as amended): for every rectangle with nonnegative rounded width and
height, `convert(MASK)` returns a mask whose bitmap is all-ones with shape
`(round(height), round(width))` and whose offset is
`(round(x), round(y))`. -/
theorem rectangle_to_mask_ones (fill : Mat → List (ℤ × ℤ) → Mat)
    (r : Rectangle) (hw : 0 ≤ pyRound r.width) (hh : 0 ≤ pyRound r.height) :
    C7Concl fill r := by
  have hcond : ¬(pyRound r.height < 0 ∨ pyRound r.width < 0) := by omega
  refine ⟨?_, onesMat_dims _ _, onesMat_entries _ _⟩
  have hconv : Region.convert fill (.rectangle r) .MASK =
      (match Rectangle.toMask r with
        | .ok mm => PyResult.ok (Region.mask mm)
        | .error e => .error e) := rfl
  have htm : Rectangle.toMask r = .ok (Mask.init
      (onesMat (pyRound r.height).toNat (pyRound r.width).toNat)
      (pyRound r.x, pyRound r.y) false) := by
    unfold Rectangle.toMask
    rw [if_neg hcond]
  have hinit : Mask.init (onesMat (pyRound r.height).toNat (pyRound r.width).toNat)
      (pyRound r.x, pyRound r.y) false =
      ⟨onesMat (pyRound r.height).toNat (pyRound r.width).toNat,
       (pyRound r.x, pyRound r.y)⟩ := by
    show (⟨Mask.normalize (onesMat (pyRound r.height).toNat (pyRound r.width).toNat),
      (pyRound r.x, pyRound r.y)⟩ : Mask) = _
    rw [normalize_onesMat]
  rw [hconv, htm, hinit]

/-- C7 witness: the amended theorem applied to `Rectangle(1/2, 2, 3, 4)`,
whose sub-pixel x position rounds to 0. -/
theorem rectangle_to_mask_ones_witness : C7Concl fill0 ⟨1 / 2, 2, 3, 4⟩ :=
  rectangle_to_mask_ones fill0 ⟨1 / 2, 2, 3, 4⟩
    (by show (0 : ℤ) ≤ pyRound (3 : ℚ); norm_num [pyRound])
    (by show (0 : ℤ) ≤ pyRound (4 : ℚ); norm_num [pyRound])

/-- C8 (counterexample): the integer input entry 256 is nonzero, yet
`astype(np.uint8)` wraps it to 0 before the positive entries are set to 1,
so the constructed bitmap holds 0 where the claim requires 1. -/
theorem mask_init_256_cx :
    (Mask.init [[256]] (0, 0) false).mask = [[0]] ∧ (256 : ℤ) ≠ 0 := by
  constructor
  · decide
  · decide

/-- C8 (as amended): after `Mask.__init__`, every bitmap value is 0 or 1;
an input entry becomes 1 exactly when it is nonzero modulo 256 (the uint8
conversion wraps) and 0 otherwise; and the one mutating later operation,
`_optimize`, preserves the 0/1 invariant. -/
theorem mask_init_normalization (input : Mat) (off : ℤ × ℤ) (opt : Bool) :
    Entries01 (Mask.init input off opt).mask ∧
    (∀ r c, cellN (Mask.init input off false).mask r c =
      if cellN input r c % 256 = 0 then 0 else 1) ∧
    Entries01 (Mask.optimizeStep (Mask.init input off opt)).mask := by
  have hbase : Entries01 (Mask.init input off opt).mask := by
    cases opt with
    | false => exact normalize_entries01 input
    | true => exact optimizeStep_entries01 (normalize_entries01 input)
  refine ⟨hbase, ?_, optimizeStep_entries01 hbase⟩
  intro r c
  have h1 : (Mask.init input off false).mask = Mask.normalize input := rfl
  rw [h1, cellN_normalize]
  rfl

/-- C9: constructing a polygon from an empty point list fails the
constructor's precondition, while any nonempty list succeeds with `count`
equal to the list length. -/
theorem polygon_constructor_spec (pt : ℚ × ℚ) (rest : List (ℚ × ℚ)) :
    mkPolygon [] = none ∧
    mkPolygon (pt :: rest) = some (Polygon.ofPoints (pt :: rest)) ∧
    (Polygon.ofPoints (pt :: rest)).count = (pt :: rest).length := by
  refine ⟨by decide, ?_, rfl⟩
  unfold mkPolygon
  rw [if_neg (by simp)]

/-- C10: `center` returns `(x + width/2, y + height/2)` and `resize` builds
a new rectangle with every field scaled by the factor, the original's
fields being untouched (all operations are value-producing). -/
theorem rectangle_center_resize (r : Rectangle) (f : ℚ) :
    r.center = (r.x + r.width / 2, r.y + r.height / 2) ∧
    (r.resize f).x = r.x * f ∧ (r.resize f).y = r.y * f ∧
    (r.resize f).width = r.width * f ∧ (r.resize f).height = r.height * f :=
  ⟨rfl, rfl, rfl, rfl, rfl⟩

end VotRegion
